import Mathlib

/-!
Verification of `src/src/dev/ultra-spine/VerticalSpine/VerticalSpineModel.cpp`
(NTRTsim, VerticalSpineModel).

The file shallowly embeds the model-building code of `VerticalSpineModel`:
the structure graph (nodes, tagged pairs, child sub-structures), the build
helpers `addNodes`, `addPairs`, `addPairsB`, `addSegments`, `addMuscles`,
`mapMuscles`, the `setup` assembly of the spine structure, and the runtime
accessors `step`, `getMuscles`, `getAllMuscles`.

Conventions of the embedding:
* `double` values are modelled as `ℚ`.  Every double constant of the config
  blocks that a claim mentions is exactly representable (`7.5`, `20.0`, `2`,
  `-6`) except `c.height = tgUtil::round(c.edge / sqrt(2.0))`, an
  irrational-derived compile-time constant whose exact value no claim
  depends on; the embedding threads it everywhere as an explicit parameter
  `ch`, so every theorem below holds for an arbitrary value of `c.height`.
* `tgStructure` is embedded at the two levels the file uses it: a flat
  vertebra structure (`tgStructure`: nodes, pairs, tags) and the spine
  container (`tgSpine`: children plus the spine-level muscle pairs).
  `addPair(j, k, tag)` stores the coordinate endpoints of nodes `j`, `k`,
  and `move` translates nodes and pair endpoints alike.
* the C++ `for` loops of `addSegments`, `addMuscles` and `mapMuscles` are
  embedded as `List.foldl` over `List.range' 1 (count - 1)`, matching
  `for (size_t i = 1; i < count; i++)`.
* exceptions (`std::invalid_argument`) are `Except.error`; the observable
  behaviour of `step` is its trace of calls (`notifyStep`, then
  `tgModel::step`), which an error path never emits.
-/

namespace VerticalSpine

/-- A 3D point (btVector3), with rational coordinates standing in for doubles. -/
abbrev Point : Type := ℚ × ℚ × ℚ

/-- Zero vector, the out-of-range default for node lookups. -/
def ptZero : Point := (0, 0, 0)

/-- Vector addition of btVector3. -/
def ptAdd (p q : Point) : Point := (p.1 + q.1, p.2.1 + q.2.1, p.2.2 + q.2.2)

/-- Scalar multiple `n * offset` of a btVector3 by a `size_t`, as in `(i + 1) * offset`. -/
def ptSmul (n : ℕ) (p : Point) : Point := ((n : ℚ) * p.1, (n : ℚ) * p.2.1, (n : ℚ) * p.2.2)

/-- A tagged pair (edge) of a tgStructure: the two coordinate endpoints and the
tag string passed to `addPair`. -/
structure TgPair where
  p1 : Point
  p2 : Point
  tag : String
deriving DecidableEq

/-- A flat tgStructure as used for a single vertebra: its nodes, its tagged
pairs, and its tag strings.  (In this file vertebra structures never have
children of their own.) -/
structure tgStructure where
  nodes : List Point
  pairs : List TgPair
  tags : List String
deriving DecidableEq

/-- A freshly constructed (empty) tgStructure. -/
def emptyStructure : tgStructure := ⟨[], [], []⟩

/-- The spine-level tgStructure: its child vertebrae (`addChild`) and the
spine-level (muscle) pairs added by `addMuscles`. -/
structure tgSpine where
  children : List tgStructure
  pairs : List TgPair
deriving DecidableEq

/-- `tgStructure::addNode(x, y, z)`. -/
def addNode (v : tgStructure) (p : Point) : tgStructure :=
  { v with nodes := v.nodes ++ [p] }

/-- `tgStructure::addPair(j, k, tag)`: records the coordinates of nodes `j`
and `k` under the given tag string. -/
def addPairIdx (v : tgStructure) (j k : ℕ) (tag : String) : tgStructure :=
  { v with pairs := v.pairs ++ [⟨v.nodes.getD j ptZero, v.nodes.getD k ptZero, tag⟩] }

/-- `tgStructure::addTags(tag)` on a vertebra. -/
def addTagsV (v : tgStructure) (t : String) : tgStructure :=
  { v with tags := v.tags ++ [t] }

/-- `tgStructure::move(offset)`: translates the nodes and the pair endpoints. -/
def moveV (v : tgStructure) (off : Point) : tgStructure :=
  { v with
    nodes := v.nodes.map (fun p => ptAdd p off)
    pairs := v.pairs.map (fun pr => ⟨ptAdd pr.p1 off, ptAdd pr.p2 off, pr.tag⟩) }

/-- `tgStructure::addChild` at the spine level. -/
def addChild (s : tgSpine) (v : tgStructure) : tgSpine :=
  { s with children := s.children ++ [v] }

/-- `tgStructure::addPair(point, point, tag)` at the spine level, as used by
`addMuscles` with looked-up node coordinates. -/
def addPairS (s : tgSpine) (q1 q2 : Point) (tag : String) : tgSpine :=
  { s with pairs := s.pairs ++ [⟨q1, q2, tag⟩] }

/-- `tgString(base, n)`: string concatenation of a base string and the decimal
representation of the number (`toString` on `ℕ` is `Nat.repr`). -/
def tgString (base : String) (n : ℕ) : String := base ++ Nat.repr n

/-! ### The configuration constants used by the claims

`configSpine.vertebra_separation` and `c.edge` are exact double literals.
`c.height` is `tgUtil::round(c.edge / sqrt(2.0))`, kept as the parameter `ch`
in all definitions below (see the header comment). -/

/-- `configSpine.vertebra_separation = 7.5`. -/
def vertebraSeparation : ℚ := 7.5

/-- `c.edge = 20.0`. -/
def cEdge : ℚ := 20

/-! ### The build helpers of VerticalSpineModel -/

/-- `VerticalSpineModel::addNodes(vertebra, edge, height)`.  Note that the
source uses `c.edge` and `c.height` (passed here as `ch`) for nodes 0, 1 and
the y-coordinates, and the `edge` argument only for the z-coordinates of
nodes 2 and 3; the `height` argument is never read. -/
def addNodes (ch : ℚ) (vertebra : tgStructure) (edge height : ℚ) : tgStructure :=
  -- right: node 0
  addNode
    -- left: node 1
    (addNode
      -- top: node 2
      (addNode
        -- front: node 3
        (addNode
          -- middle: node 4
          (addNode vertebra (cEdge / 2, 0, 0))
          (-cEdge / 2, 0, 0))
        (0, ch, -edge / 2))
      (0, ch, edge / 2))
    (0, ch / 2, 0)

/-- `VerticalSpineModel::addPairs(vertebra)`. -/
def addPairs (vertebra : tgStructure) : tgStructure :=
  addPairIdx (addPairIdx (addPairIdx (addPairIdx vertebra 0 4 "rod") 1 4 "rod") 2 4 "rod") 3 4 "rod"

/-- `VerticalSpineModel::addPairsB(vertebra)`. -/
def addPairsB (vertebra : tgStructure) : tgStructure :=
  addPairIdx (addPairIdx (addPairIdx (addPairIdx vertebra 0 4 "rodB") 1 4 "rodB") 2 4 "rodB")
    3 4 "rodB"

/-- `VerticalSpineModel::addSegments(spine, vertebra, edge, segment_count)`:
for `i = 1; i < segment_count; i++`, add a copy of `vertebra` tagged
`segment(i+1)` and moved by `(i + 1) * (0, configSpine.vertebra_separation, 0)`.
The `edge` argument is unused, as in the source. -/
def addSegments (spine : tgSpine) (vertebra : tgStructure) (edge : ℚ)
    (segment_count : ℕ) : tgSpine :=
  let offset : Point := (0, vertebraSeparation, 0)
  (List.range' 1 (segment_count - 1)).foldl
    (fun sp i =>
      addChild sp (moveV (addTagsV vertebra (tgString "segment" (i + 1))) (ptSmul (i + 1) offset)))
    spine

/-- `VerticalSpineModel::addMuscles(spine)`: for each adjacent pair of children
`i-1`, `i`, add the four vertical muscles and the four saddle muscles in
source order. -/
def addMuscles (spine : tgSpine) : tgSpine :=
  let children := spine.children
  (List.range' 1 (children.length - 1)).foldl
    (fun sp i =>
      let n0 := (children.getD (i - 1) emptyStructure).nodes
      let n1 := (children.getD i emptyStructure).nodes
      addPairS
        (addPairS
          (addPairS
            (addPairS
              (addPairS
                (addPairS
                  (addPairS
                    (addPairS sp (n0.getD 0 ptZero) (n1.getD 0 ptZero) "vertical muscle a")
                    (n0.getD 1 ptZero) (n1.getD 1 ptZero) "vertical muscle b")
                  (n0.getD 2 ptZero) (n1.getD 2 ptZero) "vertical muscle c")
                (n0.getD 3 ptZero) (n1.getD 3 ptZero) "vertical muscle d")
              (n0.getD 2 ptZero) (n1.getD 1 ptZero) (tgString "saddle muscle seg" (i - 1)))
            (n0.getD 3 ptZero) (n1.getD 1 ptZero) (tgString "saddle muscle seg" (i - 1)))
          (n0.getD 2 ptZero) (n1.getD 0 ptZero) (tgString "saddle muscle seg" (i - 1)))
        (n0.getD 3 ptZero) (n1.getD 0 ptZero) (tgString "saddle muscle seg" (i - 1)))
    spine

/-! ### The muscle map -/

/-- One `muscleMap[key] = value` assignment on `std::map<std::string, ...>`:
overwrite the entry if the key is present, append it otherwise. -/
def mapSet {α : Type} (m : List (String × List α)) (k : String) (v : List α) :
    List (String × List α) :=
  if (m.lookup k).isSome then
    m.map (fun kv => if kv.1 == k then (kv.1, v) else kv)
  else m ++ [(k, v)]

/-- `VerticalSpineModel::mapMuscles(muscleMap, model, segmentCount)`.  The
lookup `model.find<tgSpringCableActuator>(tag)` lives in the core library
(outside `src/`); it is abstracted as the function argument `find` from tag
strings to actuator lists. -/
def mapMuscles {α : Type} (find : String → List α) (muscleMap : List (String × List α))
    (segmentCount : ℕ) : List (String × List α) :=
  let m1 := mapSet muscleMap "vertical a" (find "vertical muscle a")
  let m2 := mapSet m1 "vertical b" (find "vertical muscle b")
  let m3 := mapSet m2 "vertical c" (find "vertical muscle c")
  let m4 := mapSet m3 "vertical d" (find "vertical muscle d")
  (List.range' 1 (segmentCount - 1)).foldl
    (fun m i => mapSet m (tgString "saddle" (i - 1)) (find (tgString "saddle muscle seg" (i - 1))))
    m4

/-! ### The setup assembly

`setup` builds `tetraB` (base template, `rodB` pairs, moved by `(0, 2, 0)`),
adds its copy as the first child tagged `segment1`, builds the moving template
`tetra` (`rod` pairs, moved by `(0, -6, 0)`), calls `addSegments` with
`m_segments`, and then `addMuscles`.  The physics realization
(`tgStructureInfo::buildInto`) belongs to the external library and is not part
of the structure graph. -/

/-- The base vertebra template `tetraB` of `setup`. -/
def tetraB (ch : ℚ) : tgStructure :=
  moveV (addPairsB (addNodes ch emptyStructure cEdge ch)) (0, 2, 0)

/-- The moving vertebra template `tetra` of `setup`. -/
def tetra (ch : ℚ) : tgStructure :=
  moveV (addPairs (addNodes ch emptyStructure cEdge ch)) (0, -6, 0)

/-- The spine structure graph assembled by `setup` for `m_segments = N`. -/
def spineStructure (N : ℕ) (ch : ℚ) : tgSpine :=
  let spine1 := addChild ⟨[], []⟩ (addTagsV (tetraB ch) (tgString "segment" 1))
  let spine2 := addSegments spine1 (tetra ch) cEdge N
  addMuscles spine2

/-- Node list of child `j` of a spine (empty when out of range). -/
def childNodes (s : tgSpine) (j : ℕ) : List Point :=
  (s.children.getD j emptyStructure).nodes

/-! ### step / getMuscles / getAllMuscles -/

/-- Observable calls made by `VerticalSpineModel::step`. -/
inductive StepEvent where
  | notifyStep (dt : ℚ)
  | tgModelStep (dt : ℚ)
deriving DecidableEq

/-- `VerticalSpineModel::step(dt)`: throws `std::invalid_argument` when
`dt < 0.0`, otherwise calls `notifyStep(dt)` and then `tgModel::step(dt)`.
The result is the trace of calls; an error carries no trace, since the throw
happens before anything else. -/
def step (dt : ℚ) : Except String (List StepEvent) :=
  if dt < 0.0 then
    Except.error "dt is not positive"
  else
    Except.ok [StepEvent.notifyStep dt, StepEvent.tgModelStep dt]

/-- The observable state of a built VerticalSpineModel: its muscle map and its
`allMuscles` list, with actuator handles of an abstract type `α`. -/
structure ModelState (α : Type) where
  muscleMap : List (String × List α)
  allMuscles : List α
deriving DecidableEq

/-- `VerticalSpineModel::getMuscles(key) const`: looks the key up in the
muscle map, throws `std::invalid_argument` when absent, returns the stored
list otherwise.  The state component of the result is the model state after
the call (the body performs no writes). -/
def getMuscles {α : Type} (s : ModelState α) (key : String) :
    Except String (List α) × ModelState α :=
  match s.muscleMap.lookup key with
  | none => (Except.error ("Key '" ++ key ++ "' not found in muscle map"), s)
  | some v => (Except.ok v, s)

/-- `VerticalSpineModel::getAllMuscles() const`. -/
def getAllMuscles {α : Type} (s : ModelState α) : List α × ModelState α :=
  (s.allMuscles, s)

/-! ### Characterization of the build loops -/

/-- The eight muscle pairs `addMuscles` adds for the adjacent children with
node lists `n0` (lower) and `n1` (upper) at loop index `i`, in source order. -/
def musclePairsFor (n0 n1 : List Point) (i : ℕ) : List TgPair :=
  [⟨n0.getD 0 ptZero, n1.getD 0 ptZero, "vertical muscle a"⟩,
   ⟨n0.getD 1 ptZero, n1.getD 1 ptZero, "vertical muscle b"⟩,
   ⟨n0.getD 2 ptZero, n1.getD 2 ptZero, "vertical muscle c"⟩,
   ⟨n0.getD 3 ptZero, n1.getD 3 ptZero, "vertical muscle d"⟩,
   ⟨n0.getD 2 ptZero, n1.getD 1 ptZero, tgString "saddle muscle seg" (i - 1)⟩,
   ⟨n0.getD 3 ptZero, n1.getD 1 ptZero, tgString "saddle muscle seg" (i - 1)⟩,
   ⟨n0.getD 2 ptZero, n1.getD 0 ptZero, tgString "saddle muscle seg" (i - 1)⟩,
   ⟨n0.getD 3 ptZero, n1.getD 0 ptZero, tgString "saddle muscle seg" (i - 1)⟩]

theorem foldl_addChild (l : List ℕ) (s : tgSpine) (g : ℕ → tgStructure) :
    l.foldl (fun sp i => addChild sp (g i)) s = ⟨s.children ++ l.map g, s.pairs⟩ := by
  induction l generalizing s with
  | nil => simp
  | cons a t ih =>
    rw [List.foldl_cons, ih]
    simp [addChild]

theorem foldl_addPairList (l : List ℕ) (s : tgSpine) (g : ℕ → List TgPair) :
    l.foldl (fun sp i => (⟨sp.children, sp.pairs ++ g i⟩ : tgSpine)) s
      = ⟨s.children, s.pairs ++ (l.map g).flatten⟩ := by
  induction l generalizing s with
  | nil => simp
  | cons a t ih => simp [ih]

theorem addSegments_eq (spine : tgSpine) (vertebra : tgStructure) (edge : ℚ) (cnt : ℕ) :
    addSegments spine vertebra edge cnt =
      ⟨spine.children ++ (List.range' 1 (cnt - 1)).map
        (fun i => moveV (addTagsV vertebra (tgString "segment" (i + 1)))
          (ptSmul (i + 1) (0, vertebraSeparation, 0))), spine.pairs⟩ := by
  simp only [addSegments]
  exact foldl_addChild _ _ _

theorem addMuscles_eq (s : tgSpine) :
    addMuscles s =
      ⟨s.children, s.pairs ++ ((List.range' 1 (s.children.length - 1)).map
        (fun i => musclePairsFor (childNodes s (i - 1)) (childNodes s i) i)).flatten⟩ := by
  simp only [addMuscles]
  rw [show (fun (sp : tgSpine) (i : ℕ) =>
        let n0 := (s.children.getD (i - 1) emptyStructure).nodes
        let n1 := (s.children.getD i emptyStructure).nodes
        addPairS
          (addPairS
            (addPairS
              (addPairS
                (addPairS
                  (addPairS
                    (addPairS
                      (addPairS sp (n0.getD 0 ptZero) (n1.getD 0 ptZero) "vertical muscle a")
                      (n0.getD 1 ptZero) (n1.getD 1 ptZero) "vertical muscle b")
                    (n0.getD 2 ptZero) (n1.getD 2 ptZero) "vertical muscle c")
                  (n0.getD 3 ptZero) (n1.getD 3 ptZero) "vertical muscle d")
                (n0.getD 2 ptZero) (n1.getD 1 ptZero) (tgString "saddle muscle seg" (i - 1)))
              (n0.getD 3 ptZero) (n1.getD 1 ptZero) (tgString "saddle muscle seg" (i - 1)))
            (n0.getD 2 ptZero) (n1.getD 0 ptZero) (tgString "saddle muscle seg" (i - 1)))
          (n0.getD 3 ptZero) (n1.getD 0 ptZero) (tgString "saddle muscle seg" (i - 1)))
      = (fun (sp : tgSpine) (i : ℕ) =>
          (⟨sp.children, sp.pairs ++ musclePairsFor (childNodes s (i - 1)) (childNodes s i) i⟩ :
            tgSpine)) from ?_]
  · exact foldl_addPairList _ _ _
  · funext sp i
    simp [addPairS, musclePairsFor, childNodes]

/-- The node layout of a vertebra whose bottom nodes sit at height `y`:
nodes 0..4 of `addNodes` (with `edge = c.edge = 20`) translated by `(0, y, 0)`. -/
def vNodes (ch y : ℚ) : List Point :=
  [(10, y, 0), (-10, y, 0), (0, y + ch, -10), (0, y + ch, 10), (0, y + ch / 2, 0)]

/-- Height of the bottom nodes of child `j` of the spine built by `setup`:
the base sits at `2`, the moving vertebra `j` at `-6 + (j + 1) * 7.5`. -/
def yBase (j : ℕ) : ℚ := if j = 0 then 2 else 7.5 * ((j : ℚ) + 1) - 6

/-- The child list the `setup` assembly produces: the tagged base vertebra
followed by the `N - 1` tagged, translated copies of the moving template. -/
def spineChildList (N : ℕ) (ch : ℚ) : List tgStructure :=
  addTagsV (tetraB ch) (tgString "segment" 1) ::
    (List.range' 1 (N - 1)).map
      (fun i => moveV (addTagsV (tetra ch) (tgString "segment" (i + 1)))
        (ptSmul (i + 1) (0, vertebraSeparation, 0)))

theorem spineStructure_children (N : ℕ) (ch : ℚ) :
    (spineStructure N ch).children = spineChildList N ch := by
  simp [spineStructure, addSegments_eq, addMuscles_eq, addChild, spineChildList]

theorem spineStructure_children_length (N : ℕ) (hN : 1 ≤ N) (ch : ℚ) :
    (spineStructure N ch).children.length = N := by
  rw [spineStructure_children, spineChildList]
  simp
  omega

theorem tetraB_nodes (ch : ℚ) : (tetraB ch).nodes = vNodes ch 2 := by
  simp only [tetraB, moveV, addPairsB, addPairIdx, addNodes, addNode, emptyStructure, vNodes,
    ptAdd, cEdge, List.nil_append, List.cons_append, List.map_cons, List.map_nil,
    List.cons.injEq, List.nil_eq, Prod.mk.injEq, and_true]
  repeat' apply And.intro
  all_goals first | trivial | ring | norm_num

theorem tetra_nodes (ch : ℚ) : (tetra ch).nodes = vNodes ch (-6) := by
  simp only [tetra, moveV, addPairs, addPairIdx, addNodes, addNode, emptyStructure, vNodes,
    ptAdd, cEdge, List.nil_append, List.cons_append, List.map_cons, List.map_nil,
    List.cons.injEq, List.nil_eq, Prod.mk.injEq, and_true]
  repeat' apply And.intro
  all_goals first | trivial | ring | norm_num

theorem vNodes_map_add (ch y d : ℚ) :
    (vNodes ch y).map (fun q => ptAdd q (0, d, 0)) = vNodes ch (y + d) := by
  simp only [vNodes, ptAdd, List.map_cons, List.map_nil, List.cons.injEq, List.nil_eq,
    Prod.mk.injEq, and_true]
  repeat' apply And.intro
  all_goals first | trivial | ring

theorem movedTetra_nodes (ch : ℚ) (i : ℕ) (hi : 1 ≤ i) :
    (moveV (addTagsV (tetra ch) (tgString "segment" (i + 1)))
      (ptSmul (i + 1) (0, vertebraSeparation, 0))).nodes = vNodes ch (yBase i) := by
  have hsm : ptSmul (i + 1) ((0 : ℚ), vertebraSeparation, (0 : ℚ))
      = ((0 : ℚ), ((i : ℚ) + 1) * vertebraSeparation, (0 : ℚ)) := by
    simp only [ptSmul, Prod.mk.injEq]
    repeat' apply And.intro
    all_goals (push_cast; ring)
  have h0 : (moveV (addTagsV (tetra ch) (tgString "segment" (i + 1)))
      (ptSmul (i + 1) (0, vertebraSeparation, 0))).nodes
      = (vNodes ch (-6)).map (fun q => ptAdd q (0, ((i : ℚ) + 1) * vertebraSeparation, 0)) := by
    simp only [moveV, addTagsV, hsm, tetra_nodes]
  rw [h0, vNodes_map_add]
  have hy : yBase i = -6 + ((i : ℚ) + 1) * vertebraSeparation := by
    rw [yBase, if_neg (by omega : ¬ i = 0), vertebraSeparation]
    ring
  rw [hy]

theorem childNodes_eq (N : ℕ) (ch : ℚ) (j : ℕ) (hj : j < N) :
    childNodes (spineStructure N ch) j = vNodes ch (yBase j) := by
  rw [childNodes, spineStructure_children, spineChildList]
  cases j with
  | zero =>
    rw [List.getD_cons_zero]
    show (tetraB ch).nodes = vNodes ch (yBase 0)
    rw [tetraB_nodes]
    norm_num [yBase]
  | succ j =>
    have hlen : j < ((List.range' 1 (N - 1)).map
        (fun i => moveV (addTagsV (tetra ch) (tgString "segment" (i + 1)))
          (ptSmul (i + 1) (0, vertebraSeparation, 0)))).length := by
      simp; omega
    rw [List.getD_cons_succ, List.getD_eq_getElem _ _ hlen]
    rw [List.getElem_map]
    rw [List.getElem_range']
    have h1 : 1 + 1 * j = j + 1 := by omega
    rw [h1]
    exact movedTetra_nodes ch (j + 1) (by omega)

theorem childNodes_ge (N : ℕ) (hN : 1 ≤ N) (ch : ℚ) (j : ℕ) (hj : N ≤ j) :
    childNodes (spineStructure N ch) j = [] := by
  rw [childNodes, List.getD_eq_default]
  · rfl
  · rw [spineStructure_children_length N hN]
    exact hj

theorem child_getD_eq (N : ℕ) (ch : ℚ) (i : ℕ) (hi : 1 ≤ i) (hiN : i < N) :
    (spineStructure N ch).children.getD i emptyStructure =
      moveV (addTagsV (tetra ch) (tgString "segment" (i + 1)))
        (ptSmul (i + 1) (0, vertebraSeparation, 0)) := by
  rw [spineStructure_children, spineChildList]
  cases i with
  | zero => omega
  | succ j =>
    have hlen : j < ((List.range' 1 (N - 1)).map
        (fun i => moveV (addTagsV (tetra ch) (tgString "segment" (i + 1)))
          (ptSmul (i + 1) (0, vertebraSeparation, 0)))).length := by
      simp
      omega
    rw [List.getD_cons_succ, List.getD_eq_getElem _ _ hlen, List.getElem_map,
      List.getElem_range']
    rw [show 1 + 1 * j = j + 1 from by omega]

/-- The property of claim C1, at segment count `N` and `c.height` value `ch`:
`setup` builds exactly `N` children, the base tagged `segment1`; child `i`
(for `1 ≤ i < N`) is the moving template tagged `segment(i+1)` translated by
`(i+1) * (0, 7.5, 0)`; and each non-base child's nodes are those of its
predecessor translated by `(0, 7.5, 0)`. -/
def C1Prop (N : ℕ) (ch : ℚ) : Prop :=
  (spineStructure N ch).children.length = N ∧
  ((spineStructure N ch).children.getD 0 emptyStructure).tags = [tgString "segment" 1] ∧
  (∀ i, 1 ≤ i → i < N →
    (spineStructure N ch).children.getD i emptyStructure =
      moveV (addTagsV (tetra ch) (tgString "segment" (i + 1)))
        (ptSmul (i + 1) (0, vertebraSeparation, 0))) ∧
  (∀ i, 1 ≤ i → i + 1 < N →
    childNodes (spineStructure N ch) (i + 1) =
      (childNodes (spineStructure N ch) i).map
        (fun q => ptAdd q (0, vertebraSeparation, 0)))

/-- Claim C1: for every `N ≥ 1` (and every value of `c.height`), `setup`
builds a spine with exactly `N` child vertebrae, the base tagged `segment1`,
child `i` being the moving template tagged `segment(i+1)` translated by
`(i+1) * (0, 7.5, 0)`, so consecutive non-base vertebrae are spaced exactly
`7.5` apart vertically. -/
theorem claim_C1 (N : ℕ) (hN : 1 ≤ N) (ch : ℚ) : C1Prop N ch := by
  refine ⟨spineStructure_children_length N hN ch, ?_, ?_, ?_⟩
  · rw [spineStructure_children, spineChildList, List.getD_cons_zero]
    rfl
  · intro i hi hiN
    exact child_getD_eq N ch i hi hiN
  · intro i hi hilt
    rw [childNodes_eq N ch (i + 1) (by omega), childNodes_eq N ch i (by omega), vNodes_map_add]
    have hy : yBase (i + 1) = yBase i + vertebraSeparation := by
      rw [yBase, yBase, if_neg (by omega : ¬ i + 1 = 0), if_neg (by omega : ¬ i = 0),
        vertebraSeparation]
      push_cast
      ring
    rw [hy]

/-- Witness for claim C1 at the concrete segment count `N = 3`. -/
theorem claim_C1_witness : 1 ≤ 3 ∧ C1Prop 3 14 :=
  ⟨by decide, claim_C1 3 (by decide) 14⟩

theorem spineStructure_pairs (N : ℕ) (ch : ℚ) :
    (spineStructure N ch).pairs =
      ((List.range' 1 (N - 1)).map
        (fun i => musclePairsFor (vNodes ch (yBase (i - 1))) (vNodes ch (yBase i)) i)).flatten := by
  have h1 : spineStructure N ch = addMuscles ⟨spineChildList N ch, []⟩ := by
    simp only [spineStructure]
    rw [addSegments_eq]
    simp [addChild, spineChildList]
  have h2 : childNodes (⟨spineChildList N ch, []⟩ : tgSpine) = childNodes (spineStructure N ch) := by
    funext j
    rw [childNodes, childNodes, spineStructure_children]
  rw [h1, addMuscles_eq]
  dsimp only
  rw [h2]
  have hlen : (spineChildList N ch).length - 1 = N - 1 := by
    rw [spineChildList]
    simp
  rw [hlen, List.nil_append]
  apply congrArg List.flatten
  apply List.map_congr_left
  intro i hi
  rw [List.mem_range'_1] at hi
  rw [childNodes_eq N ch (i - 1) (by omega), childNodes_eq N ch i (by omega)]

theorem yBase_inj {a b : ℕ} (hab : yBase a = yBase b) : a = b := by
  rw [yBase, yBase] at hab
  by_cases ha : a = 0 <;> by_cases hb : b = 0
  · omega
  · rw [if_pos ha, if_neg hb] at hab
    have hb1 : (1 : ℚ) ≤ (b : ℚ) := by
      exact_mod_cast Nat.one_le_iff_ne_zero.mpr hb
    linarith
  · rw [if_neg ha, if_pos hb] at hab
    have ha1 : (1 : ℚ) ≤ (a : ℚ) := by
      exact_mod_cast Nat.one_le_iff_ne_zero.mpr ha
    linarith
  · rw [if_neg ha, if_neg hb] at hab
    have : (a : ℚ) = (b : ℚ) := by linarith
    exact_mod_cast this

/-- Outer-node shapes of a vertebra whose bottom sits at height `y`: the four
nodes `0..3`, which are the only ones `addMuscles` references. -/
def isOuterNode (ch y : ℚ) (q : Point) : Prop :=
  q = (10, y, 0) ∨ q = (-10, y, 0) ∨ q = (0, y + ch, -10) ∨ q = (0, y + ch, 10)

theorem outer_mem_vNodes (ch y y' : ℚ) (q : Point) (hq : isOuterNode ch y q)
    (hmem : q ∈ vNodes ch y') : y = y' := by
  rcases hq with rfl | rfl | rfl | rfl <;>
    simp only [vNodes, List.mem_cons, List.not_mem_nil, or_false, Prod.mk.injEq] at hmem <;>
    rcases hmem with h | h | h | h | h <;>
    first
      | (exact h.2.1)
      | (exact by linarith [h.2.1])
      | (exact absurd h.1 (by norm_num))
      | (exact absurd h.2.2 (by norm_num))

theorem outer_getD_mem (ch y : ℚ) (k : ℕ) (hk : k < 4) :
    (vNodes ch y).getD k ptZero ∈ vNodes ch y ∧ isOuterNode ch y ((vNodes ch y).getD k ptZero) := by
  interval_cases k <;>
    simp [vNodes, isOuterNode]

/-- The four vertical-muscle tag strings, indexed by the node index they join. -/
def verticalMuscleTags : List String :=
  ["vertical muscle a", "vertical muscle b", "vertical muscle c", "vertical muscle d"]

theorem muscle_pair_shape (ch : ℚ) (i : ℕ) (p : TgPair)
    (hp : p ∈ musclePairsFor (vNodes ch (yBase (i - 1))) (vNodes ch (yBase i)) i) :
    p.p1 ∈ vNodes ch (yBase (i - 1)) ∧ p.p2 ∈ vNodes ch (yBase i) ∧
    isOuterNode ch (yBase (i - 1)) p.p1 ∧ isOuterNode ch (yBase i) p.p2 ∧
    ((∃ k, k < 4 ∧
        p.p1 = (vNodes ch (yBase (i - 1))).getD k ptZero ∧
        p.p2 = (vNodes ch (yBase i)).getD k ptZero ∧
        p.tag = verticalMuscleTags.getD k "") ∨
      ((p.p1 = (vNodes ch (yBase (i - 1))).getD 2 ptZero ∨
        p.p1 = (vNodes ch (yBase (i - 1))).getD 3 ptZero) ∧
       (p.p2 = (vNodes ch (yBase i)).getD 0 ptZero ∨
        p.p2 = (vNodes ch (yBase i)).getD 1 ptZero) ∧
       p.tag = tgString "saddle muscle seg" (i - 1))) := by
  simp only [musclePairsFor, List.mem_cons, List.not_mem_nil, or_false] at hp
  rcases hp with rfl | rfl | rfl | rfl | rfl | rfl | rfl | rfl
  · exact ⟨(outer_getD_mem ch _ 0 (by omega)).1, (outer_getD_mem ch _ 0 (by omega)).1,
      (outer_getD_mem ch _ 0 (by omega)).2, (outer_getD_mem ch _ 0 (by omega)).2,
      Or.inl ⟨0, by omega, rfl, rfl, rfl⟩⟩
  · exact ⟨(outer_getD_mem ch _ 1 (by omega)).1, (outer_getD_mem ch _ 1 (by omega)).1,
      (outer_getD_mem ch _ 1 (by omega)).2, (outer_getD_mem ch _ 1 (by omega)).2,
      Or.inl ⟨1, by omega, rfl, rfl, rfl⟩⟩
  · exact ⟨(outer_getD_mem ch _ 2 (by omega)).1, (outer_getD_mem ch _ 2 (by omega)).1,
      (outer_getD_mem ch _ 2 (by omega)).2, (outer_getD_mem ch _ 2 (by omega)).2,
      Or.inl ⟨2, by omega, rfl, rfl, rfl⟩⟩
  · exact ⟨(outer_getD_mem ch _ 3 (by omega)).1, (outer_getD_mem ch _ 3 (by omega)).1,
      (outer_getD_mem ch _ 3 (by omega)).2, (outer_getD_mem ch _ 3 (by omega)).2,
      Or.inl ⟨3, by omega, rfl, rfl, rfl⟩⟩
  · exact ⟨(outer_getD_mem ch _ 2 (by omega)).1, (outer_getD_mem ch _ 1 (by omega)).1,
      (outer_getD_mem ch _ 2 (by omega)).2, (outer_getD_mem ch _ 1 (by omega)).2,
      Or.inr ⟨Or.inl rfl, Or.inr rfl, rfl⟩⟩
  · exact ⟨(outer_getD_mem ch _ 3 (by omega)).1, (outer_getD_mem ch _ 1 (by omega)).1,
      (outer_getD_mem ch _ 3 (by omega)).2, (outer_getD_mem ch _ 1 (by omega)).2,
      Or.inr ⟨Or.inr rfl, Or.inr rfl, rfl⟩⟩
  · exact ⟨(outer_getD_mem ch _ 2 (by omega)).1, (outer_getD_mem ch _ 0 (by omega)).1,
      (outer_getD_mem ch _ 2 (by omega)).2, (outer_getD_mem ch _ 0 (by omega)).2,
      Or.inr ⟨Or.inl rfl, Or.inl rfl, rfl⟩⟩
  · exact ⟨(outer_getD_mem ch _ 3 (by omega)).1, (outer_getD_mem ch _ 0 (by omega)).1,
      (outer_getD_mem ch _ 3 (by omega)).2, (outer_getD_mem ch _ 0 (by omega)).2,
      Or.inr ⟨Or.inr rfl, Or.inl rfl, rfl⟩⟩

/-- The property of claim C2 at segment count `N` and `c.height` value `ch`:
`setup` adds exactly `8 * (N - 1)` muscle pairs, and every muscle pair joins
an outer node of child `i-1` to an outer node of the adjacent child `i`
(same-index nodes `0..3` for the vertical muscles, nodes `2`/`3` of the lower
to nodes `0`/`1` of the upper for the saddle muscles), never two nodes of one
and the same child. -/
def C2Prop (N : ℕ) (ch : ℚ) : Prop :=
  (spineStructure N ch).pairs.length = 8 * (N - 1) ∧
  ∀ p ∈ (spineStructure N ch).pairs, ∃ i, 1 ≤ i ∧ i < N ∧
    p.p1 ∈ childNodes (spineStructure N ch) (i - 1) ∧
    p.p2 ∈ childNodes (spineStructure N ch) i ∧
    ((∃ k, k < 4 ∧
        p.p1 = (childNodes (spineStructure N ch) (i - 1)).getD k ptZero ∧
        p.p2 = (childNodes (spineStructure N ch) i).getD k ptZero ∧
        p.tag = verticalMuscleTags.getD k "") ∨
      ((p.p1 = (childNodes (spineStructure N ch) (i - 1)).getD 2 ptZero ∨
        p.p1 = (childNodes (spineStructure N ch) (i - 1)).getD 3 ptZero) ∧
       (p.p2 = (childNodes (spineStructure N ch) i).getD 0 ptZero ∨
        p.p2 = (childNodes (spineStructure N ch) i).getD 1 ptZero) ∧
       p.tag = tgString "saddle muscle seg" (i - 1))) ∧
    ∀ j, ¬ (p.p1 ∈ childNodes (spineStructure N ch) j ∧
      p.p2 ∈ childNodes (spineStructure N ch) j)

/-- Claim C2: every pair added by `addMuscles` connects a node of one segment
to a node of the adjacent segment, never two nodes of the same segment, and
for `N ≥ 2` children exactly `8 * (N - 1)` muscle pairs are added: per
adjacent pair, four vertical muscles on same-index nodes `0..3` and four
saddle muscles from nodes `2`, `3` of the lower to nodes `0`, `1` of the
upper segment. -/
theorem claim_C2 (N : ℕ) (hN : 2 ≤ N) (ch : ℚ) : C2Prop N ch := by
  have hN1 : 1 ≤ N := by omega
  constructor
  · rw [spineStructure_pairs N ch, List.length_flatten, List.map_map]
    have hmap : ((List.range' 1 (N - 1)).map
        (List.length ∘ fun i =>
          musclePairsFor (vNodes ch (yBase (i - 1))) (vNodes ch (yBase i)) i))
        = (List.range' 1 (N - 1)).map (fun _ => 8) := by
      apply List.map_congr_left
      intro i _
      rfl
    rw [hmap, List.map_const', List.sum_replicate, List.length_range', smul_eq_mul]
    omega
  · intro p hp
    rw [spineStructure_pairs N ch, List.mem_flatten] at hp
    obtain ⟨L, hL, hpL⟩ := hp
    rw [List.mem_map] at hL
    obtain ⟨i, hirange, rfl⟩ := hL
    rw [List.mem_range'_1] at hirange
    have hi1 : 1 ≤ i := hirange.1
    have hiN : i < N := by omega
    obtain ⟨hm1, hm2, ho1, ho2, hshape⟩ := muscle_pair_shape ch i p hpL
    refine ⟨i, hi1, hiN, ?_, ?_, ?_, ?_⟩
    · rw [childNodes_eq N ch (i - 1) (by omega)]
      exact hm1
    · rw [childNodes_eq N ch i (by omega)]
      exact hm2
    · rw [childNodes_eq N ch (i - 1) (by omega), childNodes_eq N ch i (by omega)]
      exact hshape
    · intro j hj
      by_cases hjN : j < N
      · rw [childNodes_eq N ch j hjN] at hj
        have e1 : yBase (i - 1) = yBase j := outer_mem_vNodes ch _ _ _ ho1 hj.1
        have e2 : yBase i = yBase j := outer_mem_vNodes ch _ _ _ ho2 hj.2
        have : i - 1 = i := yBase_inj (e1.trans e2.symm)
        omega
      · rw [childNodes_ge N hN1 ch j (by omega)] at hj
        exact absurd hj.1 (List.not_mem_nil _)

/-- Witness for claim C2 at the concrete segment count `N = 2`. -/
theorem claim_C2_witness : 2 ≤ 2 ∧ C2Prop 2 14 :=
  ⟨by decide, claim_C2 2 (by decide) 14⟩

theorem nodup5_last (a b c d e : Point) (h : ([a, b, c, d, e] : List Point).Nodup) :
    e ∉ ([a, b, c, d] : List Point) := by
  intro hm
  simp only [List.mem_cons, List.not_mem_nil, or_false] at hm
  rcases hm with rfl | rfl | rfl | rfl <;> simp at h

/-- The property of claim C5: a vertebra built by `addNodes` followed by
`addPairs` (resp. `addPairsB`) has exactly 5 nodes and exactly 4 rod edges,
each rod joining one of the outer nodes `0..3` to the central node `4`; when
the five nodes are pairwise distinct, no rod connects two outer nodes. -/
def C5Prop (ch edge height : ℚ) : Prop :=
  let v0 := addNodes ch emptyStructure edge height
  (addPairs v0).nodes.length = 5 ∧
  (addPairs v0).pairs =
    ([0, 1, 2, 3] : List ℕ).map
      (fun k => ⟨v0.nodes.getD k ptZero, v0.nodes.getD 4 ptZero, "rod"⟩) ∧
  (addPairsB v0).nodes.length = 5 ∧
  (addPairsB v0).pairs =
    ([0, 1, 2, 3] : List ℕ).map
      (fun k => ⟨v0.nodes.getD k ptZero, v0.nodes.getD 4 ptZero, "rodB"⟩) ∧
  (v0.nodes.Nodup →
    ∀ p ∈ (addPairs v0).pairs ++ (addPairsB v0).pairs,
      p.p2 = v0.nodes.getD 4 ptZero ∧ p.p1 ∈ v0.nodes.take 4 ∧ p.p2 ∉ v0.nodes.take 4)

/-- Claim C5: a vertebra built by `addNodes` and `addPairs` (or `addPairsB`)
consists of exactly 5 nodes and 4 rods, each joining an outer node `0..3` to
the central node `4`, with no rod between two outer nodes. -/
theorem claim_C5 (ch edge height : ℚ) : C5Prop ch edge height := by
  simp only [C5Prop]
  refine ⟨rfl, rfl, rfl, rfl, ?_⟩
  intro hnd p hp
  have hlast : (addNodes ch emptyStructure edge height).nodes.getD 4 ptZero ∉
      (addNodes ch emptyStructure edge height).nodes.take 4 :=
    nodup5_last _ _ _ _ _ hnd
  simp only [addPairs, addPairsB, addPairIdx, addNodes, addNode, emptyStructure,
    List.mem_append, List.mem_cons, List.not_mem_nil, or_false, false_or,
    List.nil_append, List.cons_append, List.append_nil] at hp
  rcases hp with rfl | rfl | rfl | rfl | rfl | rfl | rfl | rfl <;>
    exact ⟨rfl, by simp [addNodes, addNode, emptyStructure], hlast⟩

/-- Witness for claim C5 at `c.height = 14`, `edge = 20`, `height = 14`,
where the five nodes are pairwise distinct. -/
theorem claim_C5_witness :
    (addNodes 14 emptyStructure 20 14).nodes.Nodup ∧ C5Prop 14 20 14 :=
  ⟨by
    simp only [addNodes, addNode, emptyStructure, cEdge, List.nil_append, List.cons_append]
    norm_num [List.nodup_cons, List.mem_cons, Prod.mk.injEq],
    claim_C5 14 20 14⟩

/-- Claim C6: `getMuscles` and `getAllMuscles` are observers only: they leave
the muscle map and the `allMuscles` list (the whole model state) unchanged. -/
theorem claim_C6 {α : Type} (s : ModelState α) (key : String) :
    (getMuscles s key).2 = s ∧ (getAllMuscles s).2 = s := by
  constructor
  · cases h : s.muscleMap.lookup key <;> simp [getMuscles, h]
  · rfl

/-- Claim C7: for every non-negative `dt`, `step dt` performs exactly one
observer notification followed by exactly one delegation to
`tgModel::step`, in that order. -/
theorem claim_C7 (dt : ℚ) (h : 0 ≤ dt) :
    step dt = Except.ok [StepEvent.notifyStep dt, StepEvent.tgModelStep dt] := by
  have h0 : ¬ dt < 0.0 := by
    norm_num
    exact h
  rw [step, if_neg h0]

/-- Witness for claim C7 at `dt = 1`. -/
theorem claim_C7_witness :
    (0 : ℚ) ≤ 1 ∧ step 1 = Except.ok [StepEvent.notifyStep 1, StepEvent.tgModelStep 1] :=
  ⟨by norm_num, claim_C7 1 (by norm_num)⟩

/-- Claim C8: `step dt` throws if and only if `dt < 0`; `step 0` does not
throw (despite the message text), and the error path emits no events at all
(no observer notification, no state change). -/
theorem claim_C8 (dt : ℚ) :
    ((∃ msg, step dt = Except.error msg) ↔ dt < 0) ∧
    (dt < 0 → step dt = Except.error "dt is not positive") ∧
    step 0 = Except.ok [StepEvent.notifyStep 0, StepEvent.tgModelStep 0] := by
  have h00 : (0.0 : ℚ) = 0 := by norm_num
  refine ⟨⟨?_, ?_⟩, ?_, ?_⟩
  · rintro ⟨msg, hmsg⟩
    by_contra hlt
    rw [step, if_neg (by rw [h00]; exact hlt)] at hmsg
    cases hmsg
  · intro hlt
    exact ⟨_, by rw [step, if_pos (by rw [h00]; exact hlt)]⟩
  · intro hlt
    rw [step, if_pos (by rw [h00]; exact hlt)]
  · rw [step, if_neg (by rw [h00]; exact lt_irrefl 0)]

/-- Witness for claim C8 at `dt = -1`. -/
theorem claim_C8_witness :
    ((-1 : ℚ) < 0) ∧ step (-1) = Except.error "dt is not positive" :=
  ⟨by norm_num, (claim_C8 (-1)).2.1 (by norm_num)⟩

/-- Claim C9: `getMuscles key` throws exactly when the key is absent from the
muscle map, returns the stored list otherwise, and leaves the map unchanged
in either case. -/
theorem claim_C9 {α : Type} (s : ModelState α) (key : String) :
    ((∃ msg, (getMuscles s key).1 = Except.error msg) ↔ s.muscleMap.lookup key = none) ∧
    (∀ v, s.muscleMap.lookup key = some v → (getMuscles s key).1 = Except.ok v) ∧
    (getMuscles s key).2 = s := by
  cases h : s.muscleMap.lookup key <;> simp [getMuscles, h]

/-- Witness for claim C9 on a one-entry muscle map. -/
theorem claim_C9_witness :
    ((⟨[("vertical a", [1, 2])], [1, 2]⟩ : ModelState ℕ).muscleMap.lookup "vertical a"
        = some [1, 2]) ∧
      (getMuscles (⟨[("vertical a", [1, 2])], [1, 2]⟩ : ModelState ℕ) "vertical a").1
        = Except.ok [1, 2] :=
  ⟨by decide, (claim_C9 (⟨[("vertical a", [1, 2])], [1, 2]⟩ : ModelState ℕ)
    "vertical a").2.1 [1, 2] (by decide)⟩

/-- Claim C10: `addNodes(vertebra, edge, height)` appends exactly the five
nodes `(c.edge/2, 0, 0)`, `(-c.edge/2, 0, 0)`, `(0, c.height, -edge/2)`,
`(0, c.height, edge/2)`, `(0, c.height/2, 0)`; the `height` argument has no
effect, and the x-coordinates of nodes 0 and 1 come from the constant
`c.edge`, not from the `edge` argument. -/
theorem claim_C10 (ch : ℚ) (v : tgStructure) (edge height height' : ℚ) :
    addNodes ch v edge height = addNodes ch v edge height' ∧
    (addNodes ch v edge height).nodes =
      v.nodes ++ [(cEdge / 2, 0, 0), (-cEdge / 2, 0, 0), (0, ch, -edge / 2),
        (0, ch, edge / 2), (0, ch / 2, 0)] ∧
    (addNodes ch v edge height).pairs = v.pairs ∧
    (addNodes ch v edge height).tags = v.tags := by
  refine ⟨rfl, ?_, rfl, rfl⟩
  simp [addNodes, addNode]

/-! ### Decimal string representations

`tgString(base, n)` concatenates `base` with the decimal representation of
`n`; the claims about muscle-map keys and tag words need that this decimal
representation is injective and contains no space.  `decChars n` is the
decimal digit list (most significant first) that `Nat.repr` produces. -/

def decChars (n : ℕ) : List Char :=
  if h : n < 10 then [Nat.digitChar n]
  else decChars (n / 10) ++ [Nat.digitChar (n % 10)]
  decreasing_by exact Nat.div_lt_self (by omega) (by omega)

theorem toDigitsCore_eq_decChars (f n : ℕ) (ds : List Char) (h : n < f) :
    Nat.toDigitsCore 10 f n ds = decChars n ++ ds := by
  induction f generalizing n ds with
  | zero => omega
  | succ f ih =>
    show (if n / 10 = 0 then Nat.digitChar (n % 10) :: ds
      else Nat.toDigitsCore 10 f (n / 10) (Nat.digitChar (n % 10) :: ds)) = decChars n ++ ds
    by_cases h10 : n / 10 = 0
    · have hn : n < 10 := by omega
      rw [if_pos h10, decChars, dif_pos hn, Nat.mod_eq_of_lt hn]
      rfl
    · have hlt : n / 10 < f := by omega
      rw [if_neg h10, ih _ _ hlt]
      conv_rhs => rw [decChars, dif_neg (by omega : ¬ n < 10)]
      rw [List.append_assoc]
      rfl

theorem repr_data_eq_decChars (n : ℕ) : (Nat.repr n).data = decChars n := by
  show (Nat.toDigits 10 n).asString.data = _
  rw [Nat.toDigits, toDigitsCore_eq_decChars (n + 1) n [] (by omega), List.append_nil]
  rfl

/-- Numeric value of a decimal digit character. -/
def digitVal (c : Char) : ℕ := c.toNat - 48

/-- Numeric value of a most-significant-first decimal digit string. -/
def decVal (cs : List Char) : ℕ := cs.foldl (fun a c => 10 * a + digitVal c) 0

theorem digitVal_digitChar (d : ℕ) (h : d < 10) : digitVal (Nat.digitChar d) = d := by
  interval_cases d <;> decide

theorem digitChar_ne_space (d : ℕ) (h : d < 10) : Nat.digitChar d ≠ ' ' := by
  interval_cases d <;> decide

theorem decVal_append (cs : List Char) (c : Char) :
    decVal (cs ++ [c]) = 10 * decVal cs + digitVal c := by
  simp [decVal, List.foldl_append]

theorem decVal_decChars (n : ℕ) : decVal (decChars n) = n := by
  induction n using Nat.strong_induction_on with
  | _ n ih =>
    by_cases h : n < 10
    · rw [decChars, dif_pos h]
      simp [decVal, digitVal_digitChar n h]
    · rw [decChars, dif_neg h, decVal_append,
        ih _ (Nat.div_lt_self (by omega) (by omega)),
        digitVal_digitChar _ (Nat.mod_lt _ (by omega))]
      omega

theorem repr_inj {a b : ℕ} (h : Nat.repr a = Nat.repr b) : a = b := by
  have hd : decChars a = decChars b := by
    rw [← repr_data_eq_decChars, ← repr_data_eq_decChars, h]
  calc a = decVal (decChars a) := (decVal_decChars a).symm
    _ = decVal (decChars b) := by rw [hd]
    _ = b := decVal_decChars b

theorem decChars_ne_space (n : ℕ) : ∀ c ∈ decChars n, c ≠ ' ' := by
  induction n using Nat.strong_induction_on with
  | _ n ih =>
    intro c hc
    by_cases h : n < 10
    · rw [decChars, dif_pos h] at hc
      simp only [List.mem_cons, List.not_mem_nil, or_false] at hc
      subst hc
      exact digitChar_ne_space n h
    · rw [decChars, dif_neg h, List.mem_append] at hc
      rcases hc with hc | hc
      · exact ih _ (Nat.div_lt_self (by omega) (by omega)) c hc
      · simp only [List.mem_cons, List.not_mem_nil, or_false] at hc
        subst hc
        exact digitChar_ne_space _ (Nat.mod_lt _ (by omega))

theorem repr_data_ne_space (n : ℕ) : ∀ c ∈ (Nat.repr n).data, c ≠ ' ' := by
  rw [repr_data_eq_decChars]
  exact decChars_ne_space n

theorem string_data_append (s t : String) : (s ++ t).data = s.data ++ t.data := by
  cases s
  cases t
  rfl

theorem tgString_inj (base : String) {m n : ℕ} (h : tgString base m = tgString base n) :
    m = n := by
  apply repr_inj
  have hd := congrArg String.data h
  rw [tgString, tgString, string_data_append, string_data_append] at hd
  exact String.ext (List.append_cancel_left hd)

theorem ne_tgString_of_head (i : ℕ) (base v : String) (hb : base.data.head? = some 's')
    (hv : v.data.head? ≠ some 's') : v ≠ tgString base i := by
  intro h
  apply hv
  have hd := congrArg String.data h
  rw [tgString, string_data_append] at hd
  rw [hd]
  cases hb2 : base.data with
  | nil => rw [hb2] at hb; cases hb
  | cons c cs =>
    rw [hb2] at hb
    simpa using hb

/-! ### Lemmas on association-list lookup (std::map semantics) -/

theorem lookup_cons_ne {α : Type} {k k1 : String} (v1 : List α) (t : List (String × List α))
    (h : (k == k1) = false) : ((k1, v1) :: t).lookup k = t.lookup k := by
  simp [List.lookup, h]

theorem lookup_cons_self {α : Type} (k : String) (v : List α) (t : List (String × List α)) :
    ((k, v) :: t).lookup k = some v := by
  simp [List.lookup]

theorem lookup_append_of_some {α : Type} {l1 : List (String × List α)}
    (l2 : List (String × List α)) {k : String} {v : List α} (h : l1.lookup k = some v) :
    (l1 ++ l2).lookup k = some v := by
  induction l1 with
  | nil => simp [List.lookup] at h
  | cons kv t ih =>
    cases kv with
    | mk k1 v1 =>
      cases hbeq : (k == k1) with
      | true =>
        rw [List.cons_append]
        simp [List.lookup, hbeq] at h ⊢
        exact h
      | false =>
        rw [List.cons_append, lookup_cons_ne _ _ hbeq]
        rw [lookup_cons_ne _ _ hbeq] at h
        exact ih h

theorem lookup_append_of_none {α : Type} {l1 : List (String × List α)}
    (l2 : List (String × List α)) {k : String} (h : l1.lookup k = none) :
    (l1 ++ l2).lookup k = l2.lookup k := by
  induction l1 with
  | nil => simp
  | cons kv t ih =>
    cases kv with
    | mk k1 v1 =>
      cases hbeq : (k == k1) with
      | true =>
        simp [List.lookup, hbeq] at h
      | false =>
        rw [lookup_cons_ne _ _ hbeq] at h
        rw [List.cons_append, lookup_cons_ne _ _ hbeq]
        exact ih h

theorem mapSet_of_none {α : Type} {m : List (String × List α)} {k : String}
    (h : m.lookup k = none) (v : List α) : mapSet m k v = m ++ [(k, v)] := by
  rw [mapSet, h]
  simp

/-- Freshness of saddle keys: `tgString "saddle" j` never collides with a
string whose first character is not `s`. -/
theorem saddle_key_beq_false (w : String) (hw : w.data.head? ≠ some 's') (j : ℕ) :
    (tgString "saddle" j == w) = false :=
  beq_eq_false_iff_ne.mpr (Ne.symm (ne_tgString_of_head j "saddle" w rfl hw))

theorem saddle_key_inj_beq_false {a b : ℕ} (hab : a ≠ b) :
    (tgString "saddle" a == tgString "saddle" b) = false := by
  apply beq_eq_false_iff_ne.mpr
  intro he
  exact hab (tgString_inj "saddle" he)

theorem foldl_mapSet_saddle {α : Type} (find : String → List α) :
    ∀ (cnt s : ℕ) (m : List (String × List α)), 1 ≤ s →
      (∀ i, s ≤ i → m.lookup (tgString "saddle" (i - 1)) = none) →
      (List.range' s cnt).foldl
        (fun mm i =>
          mapSet mm (tgString "saddle" (i - 1)) (find (tgString "saddle muscle seg" (i - 1)))) m
        = m ++ (List.range' s cnt).map
            (fun i => (tgString "saddle" (i - 1), find (tgString "saddle muscle seg" (i - 1)))) := by
  intro cnt
  induction cnt with
  | zero =>
    intro s m hs hf
    simp
  | succ cnt ih =>
    intro s m hs hf
    rw [List.range'_succ, List.foldl_cons, List.map_cons,
      mapSet_of_none (hf s (le_refl s))]
    rw [ih (s + 1) _ (by omega) ?fresh]
    · rw [List.append_assoc]
      rfl
    case fresh =>
      intro i hi
      rw [lookup_append_of_none _ (hf i (by omega))]
      rw [lookup_cons_ne _ _ (saddle_key_inj_beq_false (by omega : i - 1 ≠ s - 1))]
      rfl

theorem mapMuscles_empty_eq {α : Type} (find : String → List α) (N : ℕ) :
    mapMuscles find [] N =
      [("vertical a", find "vertical muscle a"), ("vertical b", find "vertical muscle b"),
       ("vertical c", find "vertical muscle c"), ("vertical d", find "vertical muscle d")]
        ++ (List.range' 1 (N - 1)).map
          (fun i => (tgString "saddle" (i - 1), find (tgString "saddle muscle seg" (i - 1)))) := by
  simp only [mapMuscles]
  have h1 : mapSet ([] : List (String × List α)) "vertical a" (find "vertical muscle a")
      = [("vertical a", find "vertical muscle a")] := by
    rw [mapSet_of_none (show List.lookup "vertical a" ([] : List (String × List α)) = none
      from rfl)]
    rfl
  have h2 : mapSet [("vertical a", find "vertical muscle a")] "vertical b"
      (find "vertical muscle b")
      = [("vertical a", find "vertical muscle a"), ("vertical b", find "vertical muscle b")] := by
    rw [mapSet_of_none (by rw [lookup_cons_ne _ _ (by decide)]; rfl)]
    rfl
  have h3 : mapSet [("vertical a", find "vertical muscle a"),
        ("vertical b", find "vertical muscle b")] "vertical c" (find "vertical muscle c")
      = [("vertical a", find "vertical muscle a"), ("vertical b", find "vertical muscle b"),
         ("vertical c", find "vertical muscle c")] := by
    rw [mapSet_of_none (by
      rw [lookup_cons_ne _ _ (by decide), lookup_cons_ne _ _ (by decide)]; rfl)]
    rfl
  have h4 : mapSet [("vertical a", find "vertical muscle a"),
        ("vertical b", find "vertical muscle b"), ("vertical c", find "vertical muscle c")]
        "vertical d" (find "vertical muscle d")
      = [("vertical a", find "vertical muscle a"), ("vertical b", find "vertical muscle b"),
         ("vertical c", find "vertical muscle c"), ("vertical d", find "vertical muscle d")] := by
    rw [mapSet_of_none (by
      rw [lookup_cons_ne _ _ (by decide), lookup_cons_ne _ _ (by decide),
        lookup_cons_ne _ _ (by decide)]; rfl)]
    rfl
  rw [h1, h2, h3, h4]
  exact foldl_mapSet_saddle find (N - 1) 1 _ (by omega) (by
    intro i hi
    rw [lookup_cons_ne _ _ (saddle_key_beq_false _ (by decide) _),
      lookup_cons_ne _ _ (saddle_key_beq_false _ (by decide) _),
      lookup_cons_ne _ _ (saddle_key_beq_false _ (by decide) _),
      lookup_cons_ne _ _ (saddle_key_beq_false _ (by decide) _)]
    rfl)

theorem lookup_saddle_range {α : Type} (find : String → List α) :
    ∀ (cnt s i : ℕ), 1 ≤ s → s ≤ i + 1 → i + 1 < s + cnt →
      ((List.range' s cnt).map
        (fun j => (tgString "saddle" (j - 1), find (tgString "saddle muscle seg" (j - 1))))).lookup
          (tgString "saddle" i)
        = some (find (tgString "saddle muscle seg" i)) := by
  intro cnt
  induction cnt with
  | zero =>
    intro s i hs h1 h2
    omega
  | succ cnt ih =>
    intro s i hs h1 h2
    rw [List.range'_succ, List.map_cons]
    by_cases hsi : i = s - 1
    · subst hsi
      exact lookup_cons_self _ _ _
    · rw [lookup_cons_ne _ _ (saddle_key_inj_beq_false hsi)]
      exact ih (s + 1) i (by omega) (by omega) (by omega)

/-- The property of claim C3 for a given actuator-lookup function `find`
(standing for `model.find<tgSpringCableActuator>`) and segment count `N`:
the muscle map built by `mapMuscles` on the initially empty member map holds
exactly the keys `vertical a..d` and `saddle0 .. saddle(N-2)` (`N + 3`
entries), each bound to the actuator list found under the corresponding tag. -/
def C3Prop {α : Type} (find : String → List α) (N : ℕ) : Prop :=
  (mapMuscles find [] N).map Prod.fst =
    ["vertical a", "vertical b", "vertical c", "vertical d"]
      ++ (List.range (N - 1)).map (fun i => tgString "saddle" i) ∧
  (mapMuscles find [] N).length = N + 3 ∧
  (mapMuscles find [] N).lookup "vertical a" = some (find "vertical muscle a") ∧
  (mapMuscles find [] N).lookup "vertical b" = some (find "vertical muscle b") ∧
  (mapMuscles find [] N).lookup "vertical c" = some (find "vertical muscle c") ∧
  (mapMuscles find [] N).lookup "vertical d" = some (find "vertical muscle d") ∧
  ∀ i, i < N - 1 →
    (mapMuscles find [] N).lookup (tgString "saddle" i)
      = some (find (tgString "saddle muscle seg" i))

/-- Claim C3: for every `N ≥ 2`, the muscle map `setup` populates (once, by
the single `mapMuscles` call on the initially empty member map) holds exactly
the keys `vertical a` .. `vertical d` and `saddle0` .. `saddle(N-2)` — `N+3`
entries — each mapped to the actuators found under the corresponding tag. -/
theorem claim_C3 {α : Type} (find : String → List α) (N : ℕ) (hN : 2 ≤ N) :
    C3Prop find N := by
  simp only [C3Prop]
  refine ⟨?_, ?_, ?_, ?_, ?_, ?_, ?_⟩
  · rw [mapMuscles_empty_eq, List.map_append]
    congr 1
    rw [List.map_map, List.range'_eq_map_range, List.map_map]
    apply List.map_congr_left
    intro x hx
    show tgString "saddle" (1 + x - 1) = tgString "saddle" x
    congr 1
    omega
  · rw [mapMuscles_empty_eq, List.length_append, List.length_map, List.length_range']
    simp only [List.length_cons, List.length_nil]
    omega
  · rw [mapMuscles_empty_eq]
    exact lookup_append_of_some _ (lookup_cons_self _ _ _)
  · rw [mapMuscles_empty_eq]
    exact lookup_append_of_some _ (by
      rw [lookup_cons_ne _ _ (by decide)]
      exact lookup_cons_self _ _ _)
  · rw [mapMuscles_empty_eq]
    exact lookup_append_of_some _ (by
      rw [lookup_cons_ne _ _ (by decide), lookup_cons_ne _ _ (by decide)]
      exact lookup_cons_self _ _ _)
  · rw [mapMuscles_empty_eq]
    exact lookup_append_of_some _ (by
      rw [lookup_cons_ne _ _ (by decide), lookup_cons_ne _ _ (by decide),
        lookup_cons_ne _ _ (by decide)]
      exact lookup_cons_self _ _ _)
  · intro i hi
    rw [mapMuscles_empty_eq]
    rw [lookup_append_of_none _ (by
      rw [lookup_cons_ne _ _ (saddle_key_beq_false _ (by decide) _),
        lookup_cons_ne _ _ (saddle_key_beq_false _ (by decide) _),
        lookup_cons_ne _ _ (saddle_key_beq_false _ (by decide) _),
        lookup_cons_ne _ _ (saddle_key_beq_false _ (by decide) _)]
      rfl)]
    exact lookup_saddle_range find (N - 1) 1 i (by omega) (by omega) (by omega)

/-- Witness for claim C3 at segment count `N = 3` and a concrete `find`. -/
theorem claim_C3_witness : 2 ≤ 3 ∧ C3Prop (fun t => ([t] : List String)) 3 :=
  ⟨by decide, claim_C3 (fun t => ([t] : List String)) 3 (by decide)⟩

/-! ### Tag words -/

/-- Modelled from the spec: the spec speaks of "pairs (edges tagged as "rod"
or "muscle")", and the tagging layer the builders match on (`tgTaggable`, in
the core library outside `src/`) treats a tag string as its
whitespace-separated words.  `wordsAux cs acc` splits `cs` on spaces, `acc`
holding the reversed current word. -/
def wordsAux : List Char → List Char → List (List Char)
  | [], acc => [acc.reverse]
  | c :: cs, acc => if c = ' ' then acc.reverse :: wordsAux cs [] else wordsAux cs (c :: acc)

/-- A pair is tagged `w` when `w` is one of the space-separated words of its
tag string. -/
def hasTagWord (p : TgPair) (w : String) : Prop :=
  w.data ∈ wordsAux p.tag.data []

instance (p : TgPair) (w : String) : Decidable (hasTagWord p w) :=
  inferInstanceAs (Decidable (w.data ∈ wordsAux p.tag.data []))

/-- All pairs of the structure graph: the rod pairs of every child vertebra
plus the spine-level muscle pairs. -/
def allPairs (s : tgSpine) : List TgPair :=
  (s.children.map tgStructure.pairs).flatten ++ s.pairs

theorem wordsAux_no_space (cs : List Char) (acc : List Char) (h : ∀ c ∈ cs, c ≠ ' ') :
    wordsAux cs acc = [acc.reverse ++ cs] := by
  induction cs generalizing acc with
  | nil => simp [wordsAux]
  | cons c cs ih =>
    rw [wordsAux, if_neg (h c (by simp)), ih _ (fun c' hc' => h c' (by simp [hc']))]
    simp

theorem saddle_tag_words (n : ℕ) :
    wordsAux (tgString "saddle muscle seg" n).data [] =
      [("saddle" : String).data, ("muscle" : String).data,
        ("seg" : String).data ++ (Nat.repr n).data] := by
  rw [tgString, string_data_append]
  have h1 : ("saddle muscle seg" : String).data =
      's' :: 'a' :: 'd' :: 'd' :: 'l' :: 'e' :: ' ' ::
        'm' :: 'u' :: 's' :: 'c' :: 'l' :: 'e' :: ' ' :: 's' :: 'e' :: 'g' :: [] := rfl
  rw [h1]
  simp only [List.cons_append, List.nil_append]
  simp only [wordsAux, Char.reduceEq, reduceIte]
  rw [wordsAux_no_space _ _ (repr_data_ne_space n)]
  rfl

theorem hasTagWord_saddle (p : TgPair) (n : ℕ)
    (h : p.tag = tgString "saddle muscle seg" n) : hasTagWord p "muscle" := by
  rw [hasTagWord, h, saddle_tag_words]
  simp

theorem hasTagWord_of_tag (p : TgPair) (w t : String) (h : p.tag = t)
    (hmem : w.data ∈ wordsAux t.data []) : hasTagWord p w := by
  rw [hasTagWord, h]
  exact hmem

theorem tetraB_pair_tags (ch : ℚ) : ∀ p ∈ (tetraB ch).pairs, p.tag = "rodB" := by
  intro p hp
  simp only [tetraB, moveV, addPairsB, addPairIdx, addNodes, addNode, emptyStructure,
    List.map_cons, List.map_nil, List.mem_cons, List.not_mem_nil, or_false, false_or,
    List.nil_append, List.cons_append, List.append_nil] at hp
  rcases hp with rfl | rfl | rfl | rfl <;> rfl

theorem tetra_pair_tags (ch : ℚ) : ∀ p ∈ (tetra ch).pairs, p.tag = "rod" := by
  intro p hp
  simp only [tetra, moveV, addPairs, addPairIdx, addNodes, addNode, emptyStructure,
    List.map_cons, List.map_nil, List.mem_cons, List.not_mem_nil, or_false, false_or,
    List.nil_append, List.cons_append, List.append_nil] at hp
  rcases hp with rfl | rfl | rfl | rfl <;> rfl

theorem moveV_pair_tags (v : tgStructure) (off : Point) :
    ∀ p ∈ (moveV v off).pairs, ∃ q ∈ v.pairs, p.tag = q.tag := by
  intro p hp
  simp only [moveV, List.mem_map] at hp
  obtain ⟨q, hq, rfl⟩ := hp
  exact ⟨q, hq, rfl⟩

/-- Claim C4 as amended: every pair of the structure graph is tagged `rod`,
tagged `rodB` (the base vertebra's rods), or carries `muscle` among its
space-separated tag words (all vertical and saddle muscle pairs). -/
theorem claim_C4 (N : ℕ) (ch : ℚ) :
    ∀ p ∈ allPairs (spineStructure N ch),
      p.tag = "rod" ∨ p.tag = "rodB" ∨ hasTagWord p "muscle" := by
  intro p hp
  rw [allPairs, List.mem_append] at hp
  rcases hp with hp | hp
  · rw [List.mem_flatten] at hp
    obtain ⟨L, hL, hpL⟩ := hp
    rw [List.mem_map] at hL
    obtain ⟨v, hv, rfl⟩ := hL
    rw [spineStructure_children, spineChildList, List.mem_cons] at hv
    rcases hv with rfl | hv
    · right
      left
      have he : (addTagsV (tetraB ch) (tgString "segment" 1)).pairs = (tetraB ch).pairs := rfl
      rw [he] at hpL
      exact tetraB_pair_tags ch p hpL
    · rw [List.mem_map] at hv
      obtain ⟨i, hi, rfl⟩ := hv
      left
      obtain ⟨q, hq, htag⟩ := moveV_pair_tags _ _ p hpL
      rw [htag]
      have he : (addTagsV (tetra ch) (tgString "segment" (i + 1))).pairs = (tetra ch).pairs := rfl
      rw [he] at hq
      exact tetra_pair_tags ch q hq
  · rw [spineStructure_pairs N ch, List.mem_flatten] at hp
    obtain ⟨L, hL, hpL⟩ := hp
    rw [List.mem_map] at hL
    obtain ⟨i, hi, rfl⟩ := hL
    right
    right
    simp only [musclePairsFor, List.mem_cons, List.not_mem_nil, or_false] at hpL
    rcases hpL with rfl | rfl | rfl | rfl | rfl | rfl | rfl | rfl
    · exact hasTagWord_of_tag _ "muscle" "vertical muscle a" rfl (by decide)
    · exact hasTagWord_of_tag _ "muscle" "vertical muscle b" rfl (by decide)
    · exact hasTagWord_of_tag _ "muscle" "vertical muscle c" rfl (by decide)
    · exact hasTagWord_of_tag _ "muscle" "vertical muscle d" rfl (by decide)
    · exact hasTagWord_saddle _ (i - 1) rfl
    · exact hasTagWord_saddle _ (i - 1) rfl
    · exact hasTagWord_saddle _ (i - 1) rfl
    · exact hasTagWord_saddle _ (i - 1) rfl

/-- The base vertebra's first rod pair of a two-segment spine (`c.height`
taken as `14`): endpoints `(10, 2, 0)` and `(0, 9, 0)`, tag `rodB`. -/
theorem base_rodB_pair_mem :
    (⟨(10, 2, 0), (0, 9, 0), "rodB"⟩ : TgPair) ∈ allPairs (spineStructure 2 14) := by
  rw [allPairs, List.mem_append]
  left
  rw [List.mem_flatten]
  refine ⟨(addTagsV (tetraB 14) (tgString "segment" 1)).pairs, ?_, ?_⟩
  · rw [List.mem_map]
    refine ⟨_, ?_, rfl⟩
    rw [spineStructure_children, spineChildList]
    exact List.mem_cons_self _ _
  · show (⟨(10, 2, 0), (0, 9, 0), "rodB"⟩ : TgPair) ∈ (tetraB 14).pairs
    simp only [tetraB, moveV, addPairsB, addPairIdx, addNodes, addNode, emptyStructure,
      List.map_cons, List.map_nil, List.nil_append, List.cons_append, List.append_nil,
      ptAdd, cEdge, List.mem_cons, List.not_mem_nil, or_false, List.getD_cons_zero,
      List.getD_cons_succ]
    norm_num

/-- Witness for the amended claim C4 at the base vertebra's first rod pair. -/
theorem claim_C4_witness :
    ((⟨(10, 2, 0), (0, 9, 0), "rodB"⟩ : TgPair) ∈ allPairs (spineStructure 2 14)) ∧
    ((⟨(10, 2, 0), (0, 9, 0), "rodB"⟩ : TgPair).tag = "rod" ∨
      (⟨(10, 2, 0), (0, 9, 0), "rodB"⟩ : TgPair).tag = "rodB" ∨
      hasTagWord (⟨(10, 2, 0), (0, 9, 0), "rodB"⟩ : TgPair) "muscle") :=
  ⟨base_rodB_pair_mem,
    claim_C4 2 14 (⟨(10, 2, 0), (0, 9, 0), "rodB"⟩ : TgPair) base_rodB_pair_mem⟩

/-- Counterexample to claim C4 as stated: in a two-segment spine the base
vertebra's rods are tagged `rodB`, which is neither "rod" nor "muscle"
(neither word occurs among the tag string's words). -/
theorem claim_C4_counterexample :
    ∃ p ∈ allPairs (spineStructure 2 14),
      ¬ (hasTagWord p "rod" ∨ hasTagWord p "muscle") :=
  ⟨⟨(10, 2, 0), (0, 9, 0), "rodB"⟩, base_rodB_pair_mem, by decide⟩

end VerticalSpine
